import Mathlib

/-
Verification of the auxiliary-information generation protocol
(`src/protocols/auxiliary.rs`) and the `BitVec` helper
(`src/tools/bitvec.rs`) of the synedrion repository.

The protocol code is shallowly embedded: the three round types, their
`to_send`, `verify_received` and `finalize` functions are translated
directly from the Rust source.  The cryptographic collaborators that the
spec declares out of scope (Paillier keys, the four ZK proof systems, the
chaining hash, the elliptic-curve group) are kept opaque: proofs and keys
are opaque handles, every randomized or verifying operation is a field of
a `Primitives` bundle, the curve group is an arbitrary additive
commutative group together with a scalar-multiplication-by-generator map
`gmul`, and the chaining hash is an ideal (injective) transcript of typed
items.  Rust panics (`unwrap`, out-of-bounds indexing, integer underflow)
are modelled by `Option.none` at the outermost level of the translated
function.
-/

namespace Synedrion

/-- Raw byte strings (`Box<[u8]>` / `Vec<u8>`), one `Nat` per byte. -/
abbrev Bytes := List Nat

/-- `PartyIdx`: integer in `[0, N)`. -/
abbrev PartyIdx := Nat

/-- `SessionId`: opaque byte string, identical for all parties of a session. -/
abbrev SessionId := Bytes

/-- Opaque handle of a `SecretKeyPaillier`. -/
abbrev PaillierSK := Nat

/-- Opaque handles of the four ZK proof objects and the SCH pieces. -/
abbrev PrmProof := Nat

abbrev ModProof := Nat

abbrev FacProof := Nat

abbrev SchProof := Nat

abbrev SchSecret := Nat

abbrev SchCommitment := Nat

/-- Opaque handle of a Paillier `Ciphertext`. -/
abbrev Ciphertext := Nat

/-- A `PublicKeyPaillier`: an opaque key handle exposing the bit length of
its modulus (`pk.modulus().as_ref().bits()`). -/
structure PaillierPK where
  modulusBits : Nat
  keyId : Nat
deriving DecidableEq

/-- The Fiat-Shamir auxiliary values used by the protocol: Rounds 1-2 use
`(session_id, party index)`, Round 3 uses `(session_id, rho, party index)`. -/
inductive Aux where
  | r1 (sid : SessionId) (idx : PartyIdx)
  | r3 (sid : SessionId) (rho : Bytes) (idx : PartyIdx)
deriving DecidableEq

/-- One absorbed item of the chaining hash.  Modelled from the spec:
the transcript builder absorbs canonically-encoded values; the encoding is
deterministic and unambiguous, so the transcript is modelled as the exact
list of typed items absorbed (an ideal injective encoding). -/
inductive HItem (Point : Type) where
  | dst (tag : String)
  | bytes (b : Bytes)
  | pidx (i : PartyIdx)
  | point (p : Point)
  | points (ps : List Point)
  | schc (c : SchCommitment)
  | schcs (cs : List SchCommitment)
  | pk (k : PaillierPK)
  | uint (u : Nat)
  | prm (p : PrmProof)
deriving DecidableEq

/-- The chaining hash state.  Modelled from the spec: create with a domain
separation tag, absorb values, produce a digest.  The digest is the full
transcript. -/
structure Hash (Point : Type) where
  items : List (HItem Point)
deriving DecidableEq

/-- `Hash::new_with_dst(tag)`. -/
def Hash.new_with_dst {Point : Type} (tag : String) : Hash Point :=
  ⟨[HItem.dst tag]⟩

/-- `.chain(value)`: absorb one canonically-encoded value. -/
def Hash.chain {Point : Type} (h : Hash Point) (item : HItem Point) : Hash Point :=
  ⟨h.items ++ [item]⟩

/-- `.finalize_boxed()`: the digest, modelled as the transcript itself. -/
def Hash.finalize_boxed {Point : Type} (h : Hash Point) : List (HItem Point) :=
  h.items

/-- The opaque cryptographic surfaces used by the protocol.  Randomized
operations take the current RNG state (a counter advanced by the caller)
as their first argument. -/
structure Primitives (Scalar Point : Type) where
  paillierSkRandom : Nat → PaillierSK
  publicKey : PaillierSK → PaillierPK
  nonZeroScalarRandom : Nat → Scalar
  scalarRandom : Nat → Scalar
  schSecretRandom : Nat → SchSecret
  schCommit : SchSecret → SchCommitment
  invertibleRandom : Nat → PaillierPK → Nat
  fieldElemRandom : Nat → PaillierSK → Nat
  groupMul : Nat → Nat → Nat
  groupPow : Nat → Nat → Nat
  retrieve : Nat → Nat
  prmRandom : Nat → PaillierSK → Nat → Nat → Nat → Aux → Nat → PrmProof
  prmVerify : PrmProof → PaillierPK → Nat → Nat → Aux → Bool
  randomBits : Nat → Nat → Bytes
  modRandom : Nat → PaillierSK → Aux → Nat → ModProof
  modVerify : ModProof → PaillierPK → Aux → Bool
  facRandom : Nat → PaillierSK → Aux → FacProof
  facVerify : FacProof → Bool
  schNew : SchSecret → Scalar → SchCommitment → Point → Aux → SchProof
  schVerify : SchProof → SchCommitment → Point → Aux → Bool
  ctNew : Nat → PaillierPK → Scalar → Ciphertext
  decrypt : PaillierSK → Ciphertext → Option Scalar

/-- `HoleVec<T>`: modelled from the spec: a bag of `N - 1` values indexed
by party, with a hole at the owner's index `position`; `elems` lists the
values of the other parties in index order. -/
structure HoleVec (α : Type) where
  position : Nat
  elems : List α
deriving DecidableEq

/-- `hole_vec.get(i)`: the value of party `i`, `none` at the hole or out of
range. -/
def HoleVec.get {α : Type} (v : HoleVec α) (i : Nat) : Option α :=
  if i = v.position then none
  else if i < v.position then v.elems[i]?
  else v.elems[i - 1]?

/-- `hole_vec.into_vec(x)`: modelled from the spec: the length-`N` vector
with `x` inserted at the owner's position. -/
def HoleVec.into_vec {α : Type} (v : HoleVec α) (x : α) : List α :=
  v.elems.take v.position ++ x :: v.elems.drop v.position

/-- `hole_vec.enumerate()`: the pairs `(party index, value)` in index
order, skipping the hole: the `k`-th stored element belongs to party `k`
when `k < position` and to party `k + 1` otherwise. -/
def HoleVec.enumerate {α : Type} (v : HoleVec α) : List (PartyIdx × α) :=
  v.elems.enum.map
    (fun e => (if e.1 < v.position then e.1 else e.1 + 1, e.2))

/-- `BitVec`: a byte string (`Box<[u8]>`). -/
abbrev BitVec := Bytes

/-- `BitVec::random(rng, min_bits)` from `src/tools/bitvec.rs`:
`let len = (min_bits - 1) / 8 + 1` (usize arithmetic: `min_bits = 0`
underflows and panics, modelled as `none`), then a zeroed buffer of that
length is filled by the RNG (`fill` models `rng.fill_bytes`). -/
def BitVec.random (fill : Bytes → Bytes) (min_bits : Nat) : Option Bytes :=
  if min_bits = 0 then none
  else some (fill (List.replicate ((min_bits - 1) / 8 + 1) 0))

/-- `BitXorAssign for BitVec` from `src/tools/bitvec.rs`: asserts equal
lengths (panic modelled as `none`), then XORs byte-wise. -/
def BitVec.bitxor_assign (a b : Bytes) : Option Bytes :=
  if a.length = b.length then some (List.zipWith (fun x y => x ^^^ y) a b)
  else none

/-- Byte-wise XOR of two equal-length byte strings (the total core of the
in-place XOR loop). -/
def xorB (a b : Bytes) : Bytes :=
  List.zipWith (fun x y => x ^^^ y) a b

/-- The in-place XOR loop of `Round2::finalize`:
`for (i, x) in other.iter().enumerate() { rho[i] ^= x }`.  Indexing `rho[i]`
panics when `other` is longer than `rho` (modelled as `none`); bytes of
`rho` beyond `other.len()` are kept. -/
def xorInto (rho other : Bytes) : Option Bytes :=
  if other.length ≤ rho.length then
    some (List.zipWith (fun x y => x ^^^ y) rho other ++ rho.drop other.length)
  else none

/-- `FullData<P>`: a party's publicly revealed bundle (`auxiliary.rs`). -/
structure FullData (Point : Type) where
  session_id : SessionId
  party_idx : PartyIdx
  xs_public : List Point
  sch_commitments_x : List SchCommitment
  y_public : Point
  sch_commitment_y : SchCommitment
  paillier_pk : PaillierPK
  paillier_public : Nat
  paillier_base : Nat
  prm_proof : PrmProof
  rho_bits : Bytes
  u_bits : Bytes
deriving DecidableEq

/-- `SecretData<P>`: the private counterpart (`auxiliary.rs`).  The
`NonZeroScalar` `y_secret` is modelled as a plain scalar, no claim relies
on it being nonzero. -/
structure SecretData (Scalar : Type) where
  paillier_sk : PaillierSK
  y_secret : Scalar
  xs_secret : List Scalar
  sch_secret_y : SchSecret
  sch_secrets_x : List SchSecret
deriving DecidableEq

/-- `FullData::hash()`: the chaining hash with domain-separation tag
`"Auxiliary"` absorbing the twelve fields in source order. -/
def FullData.hash {Point : Type} (d : FullData Point) : List (HItem Point) :=
  ((Hash.new_with_dst "Auxiliary").chain
    (HItem.bytes d.session_id) |>.chain
    (HItem.pidx d.party_idx) |>.chain
    (HItem.points d.xs_public) |>.chain
    (HItem.schcs d.sch_commitments_x) |>.chain
    (HItem.point d.y_public) |>.chain
    (HItem.schc d.sch_commitment_y) |>.chain
    (HItem.pk d.paillier_pk) |>.chain
    (HItem.uint d.paillier_public) |>.chain
    (HItem.uint d.paillier_base) |>.chain
    (HItem.prm d.prm_proof) |>.chain
    (HItem.bytes d.rho_bits) |>.chain
    (HItem.bytes d.u_bits)).finalize_boxed

/-- `ToSendTyped<M>`: a broadcast or a list of direct messages. -/
inductive ToSendTyped (M : Type) where
  | Broadcast (msg : M)
  | Direct (msgs : List (PartyIdx × M))
deriving DecidableEq

/-- `Round1<P>`. -/
structure Round1 (Scalar Point : Type) where
  data : FullData Point
  secret_data : SecretData Scalar

/-- `Round1Bcast`: the hash commitment `V_i`. -/
structure Round1Bcast (Point : Type) where
  hash : List (HItem Point)
deriving DecidableEq

/-- `Round2<P>`. -/
structure Round2 (Scalar Point : Type) where
  data : FullData Point
  secret_data : SecretData Scalar
  hashes : HoleVec (List (HItem Point))

/-- `Round2Bcast<P>`. -/
structure Round2Bcast (Point : Type) where
  data : FullData Point
deriving DecidableEq

/-- `Round3<P>`. -/
structure Round3 (Scalar Point : Type) where
  rho : Bytes
  data : FullData Point
  secret_data : SecretData Scalar
  datas : HoleVec (FullData Point)

/-- `FullData2<P>`: the per-recipient packet of Round 3. -/
structure FullData2 where
  mod_proof : ModProof
  fac_proof : FacProof
  sch_proof_y : SchProof
  paillier_enc_x : Ciphertext
  sch_proof_x : SchProof
deriving DecidableEq

/-- `Round3Direct<P>`. -/
structure Round3Direct where
  data2 : FullData2
deriving DecidableEq

/-- `AuxData<P>`: the terminal output. -/
structure AuxData (Scalar Point : Type) where
  x_mask : Scalar
  y : Scalar
  paillier_sk : PaillierSK
  xs_masks_public : List Point
  ys_public : List Point
  paillier_pks : List PaillierPK
  paillier_bases : List Nat
  paillier_publics : List Nat

variable {Scalar Point : Type}

/-- `zero_sum_scalars(rng, n)`.  Modelled from the spec (`tools/group.rs`
is not part of the sources): draw `n - 1` independent uniform scalars and
set the last to the negation of their sum. -/
def zero_sum_scalars [AddCommGroup Scalar] (prims : Primitives Scalar Point)
    (rng : Nat) (n : Nat) : List Scalar :=
  let firsts := (List.range (n - 1)).map (fun k => prims.scalarRandom (rng + k))
  firsts ++ [-firsts.sum]

/-- `Round1::new(rng, session_id, party_idx, num_parties)`.  The RNG is a
counter; each randomized primitive call consumes fresh state. -/
def Round1.new [AddCommGroup Scalar] (prims : Primitives Scalar Point)
    (gmul : Scalar → Point) (SEC : Nat) (rng : Nat) (session_id : SessionId)
    (party_idx : PartyIdx) (num_parties : Nat) : Round1 Scalar Point :=
  let paillier_sk := prims.paillierSkRandom rng
  let paillier_pk := prims.publicKey paillier_sk
  let y_secret := prims.nonZeroScalarRandom (rng + 1)
  let y_public := gmul y_secret
  let sch_secret_y := prims.schSecretRandom (rng + 2)
  let sch_commitment_y := prims.schCommit sch_secret_y
  let xs_secret := zero_sum_scalars prims (rng + 3) num_parties
  let xs_public := xs_secret.map gmul
  let r := prims.invertibleRandom (rng + 3 + num_parties) paillier_pk
  let lambda := prims.fieldElemRandom (rng + 4 + num_parties) paillier_sk
  let paillier_base := prims.groupMul r r
  let paillier_public := prims.groupPow paillier_base lambda
  let aux := Aux.r1 session_id party_idx
  let prm_proof := prims.prmRandom (rng + 5 + num_parties) paillier_sk lambda
    paillier_base paillier_public aux SEC
  let sch_secrets_x := (List.range num_parties).map
    (fun k => prims.schSecretRandom (rng + 6 + num_parties + k))
  let sch_commitments_x := sch_secrets_x.map prims.schCommit
  let rho_bits := prims.randomBits (rng + 6 + 2 * num_parties) SEC
  let u_bits := prims.randomBits (rng + 7 + 2 * num_parties) SEC
  { data :=
    { session_id := session_id
      party_idx := party_idx
      xs_public := xs_public
      sch_commitments_x := sch_commitments_x
      y_public := y_public
      sch_commitment_y := sch_commitment_y
      paillier_pk := paillier_pk
      paillier_public := prims.retrieve paillier_public
      paillier_base := prims.retrieve paillier_base
      prm_proof := prm_proof
      rho_bits := rho_bits
      u_bits := u_bits }
    secret_data :=
    { paillier_sk := paillier_sk
      y_secret := y_secret
      xs_secret := xs_secret
      sch_secret_y := sch_secret_y
      sch_secrets_x := sch_secrets_x } }

/-- `Round1::to_send`: broadcast `V_i = FullData::hash()`. -/
def Round1.to_send (r : Round1 Scalar Point) (_rng : Nat) :
    ToSendTyped (Round1Bcast Point) :=
  ToSendTyped.Broadcast ⟨FullData.hash r.data⟩

/-- `Round1::verify_received`: accept and store the bytes. -/
def Round1.verify_received (_r : Round1 Scalar Point) (_from : PartyIdx)
    (msg : Round1Bcast Point) : Except String (List (HItem Point)) :=
  Except.ok msg.hash

/-- `Round1::finalize`. -/
def Round1.finalize (r : Round1 Scalar Point)
    (payloads : HoleVec (List (HItem Point))) : Round2 Scalar Point :=
  { data := r.data, secret_data := r.secret_data, hashes := payloads }

/-- `Round2::to_send`: broadcast the full `FullData`. -/
def Round2.to_send (r : Round2 Scalar Point) (_rng : Nat) :
    ToSendTyped (Round2Bcast Point) :=
  ToSendTyped.Broadcast ⟨r.data⟩

/-- `Round2::verify_received`: the four ordered checks of the revealed
`FullData` (hash commitment, modulus size, zero share sum, PRM proof).
The `hashes.get(from).unwrap()` panic is modelled as `none`. -/
def Round2.verify_received [AddCommMonoid Point] [DecidableEq Point]
    (prims : Primitives Scalar Point) (SEC : Nat) (r : Round2 Scalar Point)
    (from_ : PartyIdx) (msg : Round2Bcast Point) :
    Option (Except String (FullData Point)) :=
  match r.hashes.get from_ with
  | none => none
  | some vj =>
    some (
      if FullData.hash msg.data ≠ vj then
        Except.error "Invalid hash"
      else if msg.data.paillier_pk.modulusBits < 8 * SEC then
        Except.error "Paillier modulus is too small"
      else if msg.data.xs_public.sum ≠ 0 then
        Except.error "Sum of X points is not identity"
      else if prims.prmVerify msg.data.prm_proof msg.data.paillier_pk
          msg.data.paillier_base msg.data.paillier_public
          (Aux.r1 r.data.session_id from_) = false then
        Except.error "PRM verification failed"
      else
        Except.ok msg.data)

/-- `Round2::finalize`: XOR the `rho_bits` of all payloads into own
`rho_bits` (peers in `HoleVec` iteration order). -/
def Round2.finalize (r : Round2 Scalar Point)
    (payloads : HoleVec (FullData Point)) : Option (Round3 Scalar Point) := do
  let rho ← payloads.elems.foldlM (fun acc d => xorInto acc d.rho_bits)
    r.data.rho_bits
  pure { rho := rho, data := r.data, secret_data := r.secret_data,
         datas := payloads }

/-- The loop body of `Round3::to_send`: one `FullData2` per entry of
`datas.enumerate()`, threading the RNG (two draws per iteration: the FAC
proof and the ciphertext).  Out-of-range indexing panics (`none`). -/
def Round3.sendLoop (prims : Primitives Scalar Point) (r : Round3 Scalar Point)
    (mod_proof : ModProof) (sch_proof_y : SchProof) (aux : Aux) :
    List (PartyIdx × FullData Point) → Nat →
    Option (List (PartyIdx × Round3Direct))
  | [], _ => some []
  | (party_idx, data) :: rest, rng =>
    let fac_proof := prims.facRandom rng r.secret_data.paillier_sk aux
    match r.secret_data.xs_secret[party_idx]?, r.data.xs_public[party_idx]?,
        r.secret_data.sch_secrets_x[party_idx]?,
        r.data.sch_commitments_x[party_idx]? with
    | some x_secret, some x_public, some sch_sec, some sch_com =>
      let ciphertext := prims.ctNew (rng + 1) data.paillier_pk x_secret
      let sch_proof_x := prims.schNew sch_sec x_secret sch_com x_public aux
      (Round3.sendLoop prims r mod_proof sch_proof_y aux rest (rng + 2)).map
        (fun tail =>
          (party_idx, ⟨⟨mod_proof, fac_proof, sch_proof_y, ciphertext,
            sch_proof_x⟩⟩) :: tail)
    | _, _, _, _ => none

/-- `Round3::to_send`: one MOD proof and one SCH proof for `y` (shared by
every recipient), then one direct packet per other party. -/
def Round3.to_send (prims : Primitives Scalar Point) (SEC : Nat)
    (r : Round3 Scalar Point) (rng : Nat) :
    Option (ToSendTyped Round3Direct) := do
  let aux := Aux.r3 r.data.session_id r.rho r.data.party_idx
  let mod_proof := prims.modRandom rng r.secret_data.paillier_sk aux SEC
  let sch_proof_y := prims.schNew r.secret_data.sch_secret_y
    r.secret_data.y_secret r.data.sch_commitment_y r.data.y_public aux
  let dms ← Round3.sendLoop prims r mod_proof sch_proof_y aux
    r.datas.enumerate (rng + 1)
  pure (ToSendTyped.Direct dms)

/-- `Round3::verify_received`: decrypt the incoming share (the source
calls `.unwrap()` on the decryption, so a failed decryption panics,
modelled as `none`), check its curve image, then verify the MOD, FAC and
the two SCH proofs. -/
def Round3.verify_received [DecidableEq Point]
    (prims : Primitives Scalar Point) (gmul : Scalar → Point)
    (r : Round3 Scalar Point) (from_ : PartyIdx) (msg : Round3Direct) :
    Option (Except String Scalar) :=
  match r.datas.get from_ with
  | none => none
  | some sender_data =>
    match prims.decrypt r.secret_data.paillier_sk msg.data2.paillier_enc_x with
    | none => none
    | some x_secret =>
      match sender_data.xs_public[r.data.party_idx]? with
      | none => none
      | some xpub =>
        if gmul x_secret ≠ xpub then
          some (Except.error "Mismatched secret x")
        else
          let aux := Aux.r3 r.data.session_id r.rho from_
          if prims.modVerify msg.data2.mod_proof sender_data.paillier_pk
              aux = false then
            some (Except.error "Mod proof verification failed")
          else if prims.facVerify msg.data2.fac_proof = false then
            some (Except.error "Fac proof verification failed")
          else if prims.schVerify msg.data2.sch_proof_y
              sender_data.sch_commitment_y sender_data.y_public aux = false then
            some (Except.error "Sch proof verification (Y) failed")
          else
            match sender_data.sch_commitments_x[r.data.party_idx]?,
                sender_data.xs_public[r.data.party_idx]? with
            | some schx_com, some xpub2 =>
              some (
                if prims.schVerify msg.data2.sch_proof_x schx_com xpub2
                    aux = false then
                  Except.error "Sch proof verification (Y) failed"
                else
                  Except.ok x_secret)
            | _, _ => none

/-- `Round3::finalize`: assemble `AuxData`.  Out-of-range indexing panics
(`none`). -/
def Round3.finalize [AddCommMonoid Scalar] [AddCommMonoid Point]
    (r : Round3 Scalar Point) (payloads : HoleVec Scalar) :
    Option (AuxData Scalar Point) := do
  let own ← r.secret_data.xs_secret[r.data.party_idx]?
  let secrets := payloads.into_vec own
  let x_mask := secrets.sum
  let datas := r.datas.into_vec r.data
  let xs_masks_public ← (List.range datas.length).mapM
    (fun idx => (datas.mapM (fun d => d.xs_public[idx]?)).map List.sum)
  let ys_public := datas.map (fun d => d.y_public)
  let paillier_pks := datas.map (fun d => d.paillier_pk)
  let paillier_bases := datas.map (fun d => d.paillier_base)
  let paillier_publics := datas.map (fun d => d.paillier_public)
  pure
    { x_mask := x_mask
      y := r.secret_data.y_secret
      paillier_sk := r.secret_data.paillier_sk
      xs_masks_public := xs_masks_public
      ys_public := ys_public
      paillier_pks := paillier_pks
      paillier_bases := paillier_bases
      paillier_publics := paillier_publics }

/-! ### A concrete instantiation of the opaque surfaces

Used to exercise the theorems on concrete inputs.  The curve group is
modelled by the integers with a constant generator map supplied at each
use site. -/

/-- A trivial primitives bundle: every verifier accepts, decryption
yields `0`. -/
def wPrims : Primitives Int Int where
  paillierSkRandom := fun _ => 0
  publicKey := fun _ => ⟨2048, 0⟩
  nonZeroScalarRandom := fun _ => 1
  scalarRandom := fun n => Int.ofNat n
  schSecretRandom := fun _ => 0
  schCommit := fun _ => 0
  invertibleRandom := fun _ _ => 1
  fieldElemRandom := fun _ _ => 1
  groupMul := fun a b => a * b
  groupPow := fun a b => a ^ b
  retrieve := fun a => a
  prmRandom := fun _ _ _ _ _ _ _ => 0
  prmVerify := fun _ _ _ _ _ => true
  randomBits := fun _ n => List.replicate ((n - 1) / 8 + 1) 0
  modRandom := fun _ _ _ _ => 0
  modVerify := fun _ _ _ => true
  facRandom := fun _ _ _ => 0
  facVerify := fun _ => true
  schNew := fun _ _ _ _ _ => 0
  schVerify := fun _ _ _ _ => true
  ctNew := fun _ _ _ => 0
  decrypt := fun _ _ => some 0

/-- Primitives whose SCH verifier accepts exactly the proof handle `1`. -/
def bPrims : Primitives Int Int :=
  { wPrims with schVerify := fun p _ _ _ => decide (p = 1) }

/-- Concrete `FullData` of party 0. -/
def wData0 : FullData Int :=
  { session_id := [1], party_idx := 0, xs_public := [1, -1],
    sch_commitments_x := [0, 0], y_public := 0, sch_commitment_y := 0,
    paillier_pk := ⟨2048, 0⟩, paillier_public := 1, paillier_base := 1,
    prm_proof := 0, rho_bits := [5], u_bits := [6] }

/-- Concrete `FullData` of party 1. -/
def wData1 : FullData Int :=
  { session_id := [1], party_idx := 1, xs_public := [0, 0],
    sch_commitments_x := [0, 0], y_public := 0, sch_commitment_y := 0,
    paillier_pk := ⟨2048, 0⟩, paillier_public := 1, paillier_base := 1,
    prm_proof := 0, rho_bits := [7], u_bits := [8] }

/-- Concrete `SecretData` of party 0. -/
def wSecret : SecretData Int :=
  { paillier_sk := 0, y_secret := 1, xs_secret := [1, -1],
    sch_secret_y := 0, sch_secrets_x := [0, 0] }

/-- Concrete Round-2 state of party 0 holding party 1's commitment. -/
def wR2 : Round2 Int Int :=
  { data := wData0, secret_data := wSecret,
    hashes := ⟨0, [FullData.hash wData1]⟩ }

/-- Concrete Round-3 state of party 0 holding party 1's `FullData`. -/
def wR3 : Round3 Int Int :=
  { rho := [0], data := wData0, secret_data := wSecret,
    datas := ⟨0, [wData1]⟩ }

/-- A Round-3 packet whose Y-proof handle is rejected by `bPrims` and
whose X-proof handle is accepted. -/
def msgY : Round3Direct := ⟨⟨0, 0, 0, 0, 1⟩⟩

/-- A Round-3 packet whose Y-proof handle is accepted by `bPrims` and
whose X-proof handle is rejected. -/
def msgX : Round3Direct := ⟨⟨0, 0, 1, 0, 0⟩⟩

/-- Party 0's accepted Round-2 payload bag (party 1's bundle). -/
def wPay0 : HoleVec (FullData Int) := ⟨0, [wData1]⟩

/-- Concrete Round-2 state of party 1 holding party 0's commitment. -/
def wR2p1 : Round2 Int Int :=
  { data := wData1, secret_data := wSecret,
    hashes := ⟨1, [FullData.hash wData0]⟩ }

/-- Party 1's accepted Round-2 payload bag (party 0's bundle). -/
def wPay1 : HoleVec (FullData Int) := ⟨1, [wData0]⟩

/-- Party 0's accepted Round-3 scalar payloads (peer 1 sent `4`). -/
def wPayS : HoleVec Int := ⟨0, [4]⟩

/-- Party 0's accepted Round-3 scalar payloads in an honest run against
`wData1` (peer 1's share for party 0 is `0 = xs_public^(1)[0]`). -/
def wPayC3 : HoleVec Int := ⟨0, [0]⟩

/-- Projection used by the C3 witness: `xs_masks_public[0]`, party 0's
published mask point. -/
def wMaskAt0 (aux : AuxData Int Int) : Int := aux.xs_masks_public.getD 0 0

/-- Projection used by the C6 witness: the number of direct messages. -/
def wDirectLen : ToSendTyped Round3Direct → Nat
  | ToSendTyped.Broadcast _ => 0
  | ToSendTyped.Direct msgs => msgs.length

/-! ### Helper lemmas about the byte-wise XOR -/

theorem xorInto_eq_xorB {a b : Bytes} (h : b.length = a.length) :
    xorInto a b = some (xorB a b) := by
  unfold xorInto xorB
  rw [if_pos (by omega), List.drop_eq_nil_of_le (by omega), List.append_nil]

theorem xorB_length {a b : Bytes} (h : b.length = a.length) :
    (xorB a b).length = a.length := by
  simp [xorB, List.length_zipWith]
  omega

theorem xorB_replicate_zero_aux : ∀ (a : Bytes),
    xorB (List.replicate a.length 0) a = a := by
  intro a
  induction a with
  | nil => rfl
  | cons x xs ih =>
    simp only [List.length_cons, List.replicate_succ, xorB,
      List.zipWith_cons_cons, Nat.zero_xor]
    exact congrArg (x :: ·) ih

theorem xorB_replicate_zero {L : Nat} {a : Bytes} (h : a.length = L) :
    xorB (List.replicate L 0) a = a := by
  subst h
  exact xorB_replicate_zero_aux a

theorem xorB_right_comm : ∀ (a b c : Bytes),
    xorB (xorB a b) c = xorB (xorB a c) b := by
  intro a
  induction a with
  | nil => intro b c; simp [xorB]
  | cons x xs ih =>
    intro b c
    cases b with
    | nil => simp [xorB]
    | cons y ys =>
      cases c with
      | nil => simp [xorB]
      | cons z zs =>
        simp only [xorB, List.zipWith_cons_cons]
        refine congrArg₂ (· :: ·) ?_ (ih ys zs)
        rw [Nat.xor_assoc, Nat.xor_comm y z, ← Nat.xor_assoc]

theorem foldl_xorB_perm {l1 l2 : List Bytes} (h : l1.Perm l2) :
    ∀ b, List.foldl xorB b l1 = List.foldl xorB b l2 := by
  induction h with
  | nil => intro b; rfl
  | cons x _ ih => intro b; simp only [List.foldl_cons]; exact ih _
  | swap x y l => intro b; simp only [List.foldl_cons]; rw [xorB_right_comm]
  | trans _ _ ih1 ih2 => intro b; exact (ih1 b).trans (ih2 b)

theorem foldl_xorB_length : ∀ (l : List Bytes)
    (a : Bytes), (∀ d ∈ l, d.length = a.length) →
    (List.foldl xorB a l).length = a.length := by
  intro l
  induction l with
  | nil => intro a _; rfl
  | cons d rest ih =>
    intro a h
    have hd : d.length = a.length := h d (by simp)
    simp only [List.foldl_cons]
    rw [ih (xorB a d) (fun e he => by rw [h e (by simp [he]), xorB_length hd]),
      xorB_length hd]

theorem foldlM_xorInto {α : Type} (f : α → Bytes) : ∀ (l : List α) (a : Bytes),
    (∀ d ∈ l, (f d).length = a.length) →
    List.foldlM (fun acc d => xorInto acc (f d)) a l =
      some (List.foldl (fun acc d => xorB acc (f d)) a l) := by
  intro l
  induction l with
  | nil => intro a _; rfl
  | cons d rest ih =>
    intro a h
    have hd : (f d).length = a.length := h d (by simp)
    simp only [List.foldlM_cons, xorInto_eq_xorB hd, Option.bind_eq_bind,
      Option.some_bind, List.foldl_cons]
    exact ih (xorB a (f d)) (fun e he => by
      rw [h e (by simp [he]), xorB_length hd])

/-! ### Helper lemmas about `Option`-valued maps and lists -/

theorem mapM_eq_map {α β : Type} (g : α → Option β) (f : α → β) :
    ∀ (l : List α), (∀ a ∈ l, g a = some (f a)) →
    l.mapM g = some (l.map f) := by
  intro l
  induction l with
  | nil => intro _; rfl
  | cons x xs ih =>
    intro h
    rw [List.mapM_cons, h x (by simp), ih (fun a ha => h a (by simp [ha]))]
    rfl

theorem map_eq_map_of_getElem {α β γ : Type} (f : α → γ) (g : β → γ) :
    ∀ (l1 : List α) (l2 : List β), l1.length = l2.length →
    (∀ k (h1 : k < l1.length) (h2 : k < l2.length), f l1[k] = g l2[k]) →
    l1.map f = l2.map g := by
  intro l1
  induction l1 with
  | nil =>
    intro l2 hlen _
    cases l2 with
    | nil => rfl
    | cons y ys => simp at hlen
  | cons x xs ih =>
    intro l2 hlen h
    cases l2 with
    | nil => simp at hlen
    | cons y ys =>
      simp only [List.map_cons]
      refine congrArg₂ (· :: ·) (h 0 (by simp) (by simp)) ?_
      exact ih ys (by simpa using hlen)
        (fun k h1 h2 => h (k + 1) (by simpa using h1) (by simpa using h2))

/-! ### Helper lemmas about `HoleVec` -/

theorem HoleVec.into_vec_length {α : Type} (v : HoleVec α) (x : α) :
    (v.into_vec x).length = v.elems.length + 1 := by
  simp [HoleVec.into_vec]
  omega

theorem HoleVec.into_vec_get_self {α : Type} (v : HoleVec α) (x : α)
    (h : v.position ≤ v.elems.length) :
    (v.into_vec x)[v.position]? = some x := by
  unfold HoleVec.into_vec
  rw [List.getElem?_append_right (by simp only [List.length_take]; omega)]
  simp [List.length_take, Nat.min_eq_left h]

theorem HoleVec.into_vec_get_lt {α : Type} (v : HoleVec α) (x : α) {j : Nat}
    (hpos : v.position ≤ v.elems.length) (h : j < v.position) :
    (v.into_vec x)[j]? = v.elems[j]? := by
  unfold HoleVec.into_vec
  rw [List.getElem?_append]
  rw [if_pos (by simp only [List.length_take]; omega)]
  simp [List.getElem?_take, h]

theorem HoleVec.into_vec_get_gt {α : Type} (v : HoleVec α) (x : α) {j : Nat}
    (hpos : v.position ≤ v.elems.length) (h : v.position < j) :
    (v.into_vec x)[j]? = v.elems[j - 1]? := by
  unfold HoleVec.into_vec
  rw [List.getElem?_append_right (by simp [List.length_take]; omega)]
  have hm : j - (v.elems.take v.position).length = (j - v.position - 1) + 1 := by
    simp [List.length_take]
    omega
  rw [hm, List.getElem?_cons_succ, List.getElem?_drop]
  have : v.position + (j - v.position - 1) = j - 1 := by omega
  rw [this]

theorem HoleVec.get_of_lt {α : Type} (v : HoleVec α) {k : Nat}
    (h : k < v.position) : v.get k = v.elems[k]? := by
  unfold HoleVec.get
  rw [if_neg (by omega), if_pos h]

theorem HoleVec.get_of_ge {α : Type} (v : HoleVec α) {k : Nat}
    (h : v.position ≤ k) : v.get (k + 1) = v.elems[k]? := by
  unfold HoleVec.get
  rw [if_neg (by omega), if_neg (by omega)]
  simp

theorem HoleVec.into_vec_map {α β : Type} (v : HoleVec α) (x : α) (f : α → β) :
    (v.into_vec x).map f = HoleVec.into_vec ⟨v.position, v.elems.map f⟩ (f x) := by
  simp [HoleVec.into_vec, List.map_take, List.map_drop]

theorem HoleVec.into_vec_sum {M : Type} [AddCommMonoid M] (v : HoleVec M)
    (x : M) : (v.into_vec x).sum = x + v.elems.sum := by
  unfold HoleVec.into_vec
  calc (v.elems.take v.position ++ x :: v.elems.drop v.position).sum
      = (v.elems.take v.position).sum + (x + (v.elems.drop v.position).sum) := by
        simp
    _ = x + ((v.elems.take v.position).sum + (v.elems.drop v.position).sum) := by
        rw [add_left_comm]
    _ = x + (v.elems.take v.position ++ v.elems.drop v.position).sum := by
        rw [List.sum_append]
    _ = x + v.elems.sum := by rw [List.take_append_drop]

/-! ### Helper lemmas about the generator map -/

theorem gmul_list_sum {Scalar Point : Type} [AddCommMonoid Scalar]
    [AddCommMonoid Point] (gmul : Scalar → Point) (h0 : gmul 0 = 0)
    (hadd : ∀ a b, gmul (a + b) = gmul a + gmul b) :
    ∀ l : List Scalar, gmul l.sum = (l.map gmul).sum := by
  intro l
  induction l with
  | nil => simpa using h0
  | cons x xs ih => simp [hadd, ih]

theorem getElem?_eq_some_getD {α : Type} (l : List α) (dflt : α) {k : Nat}
    (h : k < l.length) : l[k]? = some (l.getD k dflt) := by
  rw [List.getElem?_eq_getElem h, List.getD_eq_getElem l dflt h]

theorem getD_map {α β : Type} (f : α → β) (l : List α) {k : Nat}
    (h : k < l.length) (d : α) (d' : β) :
    (l.map f).getD k d' = f (l.getD k d) := by
  rw [List.getD_eq_getElem _ _ (by simpa using h),
    List.getD_eq_getElem _ _ h, List.getElem_map]

theorem HoleVec.into_vec_get_of_get {α : Type} (v : HoleVec α) (x : α)
    {j : Nat} (hpos : v.position ≤ v.elems.length) {a : α}
    (h : v.get j = some a) : (v.into_vec x)[j]? = some a := by
  unfold HoleVec.get at h
  by_cases h1 : j = v.position
  · rw [if_pos h1] at h
    cases h
  · rw [if_neg h1] at h
    by_cases h2 : j < v.position
    · rw [if_pos h2] at h
      rw [HoleVec.into_vec_get_lt v x hpos h2]
      exact h
    · rw [if_neg h2] at h
      have h3 : v.position < j := by omega
      rw [HoleVec.into_vec_get_gt v x hpos h3]
      exact h

/-- The closed form of `Round3::finalize` when every index is in range. -/
theorem Round3.finalize_eq {Scalar Point : Type} [AddCommMonoid Scalar]
    [AddCommMonoid Point] (r : Round3 Scalar Point) (payloads : HoleVec Scalar)
    (hsec : r.data.party_idx < r.secret_data.xs_secret.length)
    (hxlen : ∀ d ∈ r.datas.into_vec r.data,
      d.xs_public.length = (r.datas.into_vec r.data).length) :
    Round3.finalize r payloads = some
      { x_mask := (payloads.into_vec
          (r.secret_data.xs_secret.getD r.data.party_idx 0)).sum
        y := r.secret_data.y_secret
        paillier_sk := r.secret_data.paillier_sk
        xs_masks_public := (List.range (r.datas.into_vec r.data).length).map
          (fun k => ((r.datas.into_vec r.data).map
            (fun d => d.xs_public.getD k 0)).sum)
        ys_public := (r.datas.into_vec r.data).map (fun d => d.y_public)
        paillier_pks := (r.datas.into_vec r.data).map (fun d => d.paillier_pk)
        paillier_bases := (r.datas.into_vec r.data).map
          (fun d => d.paillier_base)
        paillier_publics := (r.datas.into_vec r.data).map
          (fun d => d.paillier_public) } := by
  have hinner : ∀ k, k < (r.datas.into_vec r.data).length →
      (r.datas.into_vec r.data).mapM (fun d => d.xs_public[k]?) =
        some ((r.datas.into_vec r.data).map
          (fun d => d.xs_public.getD k 0)) := by
    intro k hk
    exact mapM_eq_map _ _ _ (fun d hd =>
      getElem?_eq_some_getD _ _ (by rw [hxlen d hd]; exact hk))
  have houter : (List.range (r.datas.into_vec r.data).length).mapM
      (fun idx => ((r.datas.into_vec r.data).mapM
        (fun d => d.xs_public[idx]?)).map List.sum) =
      some ((List.range (r.datas.into_vec r.data).length).map
        (fun k => ((r.datas.into_vec r.data).map
          (fun d => d.xs_public.getD k 0)).sum)) := by
    refine mapM_eq_map _ _ _ (fun k hk => ?_)
    rw [hinner k (List.mem_range.mp hk)]
    rfl
  unfold Round3.finalize
  rw [getElem?_eq_some_getD r.secret_data.xs_secret 0 hsec]
  simp only [Option.bind_eq_bind, Option.some_bind]
  rw [houter]
  rfl

/-! ### The party indices visited by `enumerate` -/

theorem range_map_skip (pos : Nat) : ∀ n, pos ≤ n →
    (List.range n).map (fun k => if k < pos then k else k + 1) =
      (List.range (n + 1)).filter (fun i => decide (i ≠ pos)) := by
  intro n
  induction n with
  | zero =>
    intro h
    have hp : pos = 0 := by omega
    subst hp
    simp
  | succ n ih =>
    intro h
    rcases Nat.lt_or_ge n pos with hc | hc
    · have hp : pos = n + 1 := by omega
      subst hp
      rw [List.map_congr_left (fun k hk => by
        rw [if_pos (List.mem_range.mp hk)])]
      rw [List.map_id']
      rw [List.range_succ (n := n + 1), List.filter_append]
      rw [List.filter_eq_self.mpr (fun a ha => by
        simp only [decide_eq_true_eq]
        have := List.mem_range.mp ha
        omega)]
      simp
    · rw [List.range_succ, List.map_append, ih hc, List.range_succ
        (n := n + 1), List.filter_append]
      refine congrArg₂ (· ++ ·) rfl ?_
      simp only [List.map_cons, List.map_nil, List.filter_cons]
      rw [if_neg (by omega), if_pos (by simp; omega)]
      simp

theorem HoleVec.enumerate_length {α : Type} (v : HoleVec α) :
    v.enumerate.length = v.elems.length := by
  simp [HoleVec.enumerate, List.enum_length]

theorem HoleVec.enumerate_getElem? {α : Type} (v : HoleVec α) {k : Nat}
    (h : k < v.elems.length) :
    v.enumerate[k]? =
      some (if k < v.position then k else k + 1, v.elems[k]) := by
  simp [HoleVec.enumerate, List.getElem?_map, List.getElem?_enum,
    List.getElem?_eq_getElem h]

theorem HoleVec.enumerate_map_fst {α : Type} (v : HoleVec α)
    (hpos : v.position ≤ v.elems.length) :
    v.enumerate.map Prod.fst =
      (List.range (v.elems.length + 1)).filter
        (fun i => decide (i ≠ v.position)) := by
  unfold HoleVec.enumerate
  rw [List.map_map]
  have h2 : (Prod.fst ∘ fun (e : Nat × α) =>
      (if e.1 < v.position then e.1 else e.1 + 1, e.2)) =
      (fun k => if k < v.position then k else k + 1) ∘ Prod.fst := rfl
  rw [h2, ← List.map_map, List.enum_map_fst]
  exact range_map_skip v.position v.elems.length hpos

/-- The closed form of the `Round3::to_send` loop when every recipient
index is in range: entry `k` carries the recipient and the shared MOD and
SCH-for-y proofs, a FAC proof drawn at RNG state `rng + 2k` and a
ciphertext of the recipient's share drawn at RNG state `rng + 2k + 1`. -/
theorem Round3.sendLoop_spec {Scalar Point : Type} [AddCommMonoid Scalar]
    [AddCommMonoid Point]
    (prims : Primitives Scalar Point) (r : Round3 Scalar Point)
    (mod_proof : ModProof) (sch_proof_y : SchProof) (aux : Aux) :
    ∀ (l : List (PartyIdx × FullData Point)) (rng : Nat),
    (∀ e ∈ l, e.1 < r.secret_data.xs_secret.length ∧
      e.1 < r.data.xs_public.length ∧
      e.1 < r.secret_data.sch_secrets_x.length ∧
      e.1 < r.data.sch_commitments_x.length) →
    ∃ out, Round3.sendLoop prims r mod_proof sch_proof_y aux l rng =
        some out ∧
      out.length = l.length ∧
      ∀ k (hk : k < l.length), out[k]? = some (l[k].1,
        ⟨⟨mod_proof,
          prims.facRandom (rng + 2 * k) r.secret_data.paillier_sk aux,
          sch_proof_y,
          prims.ctNew (rng + 2 * k + 1) (l[k].2.paillier_pk)
            (r.secret_data.xs_secret.getD (l[k].1) 0),
          prims.schNew (r.secret_data.sch_secrets_x.getD (l[k].1) 0)
            (r.secret_data.xs_secret.getD (l[k].1) 0)
            (r.data.sch_commitments_x.getD (l[k].1) 0)
            (r.data.xs_public.getD (l[k].1) 0) aux⟩⟩) := by
  intro l
  induction l with
  | nil =>
    intro rng _
    exact ⟨[], rfl, rfl, fun k hk => absurd hk (by simp)⟩
  | cons e rest ih =>
    intro rng h
    obtain ⟨h1, h2, h3, h4⟩ := h e (by simp)
    obtain ⟨j, d⟩ := e
    obtain ⟨out', hrec, hlen', hspec'⟩ :=
      ih (rng + 2) (fun e he => h e (by simp [he]))
    refine ⟨(j, ⟨⟨mod_proof,
        prims.facRandom rng r.secret_data.paillier_sk aux, sch_proof_y,
        prims.ctNew (rng + 1) d.paillier_pk
          (r.secret_data.xs_secret.getD j 0),
        prims.schNew (r.secret_data.sch_secrets_x.getD j 0)
          (r.secret_data.xs_secret.getD j 0)
          (r.data.sch_commitments_x.getD j 0)
          (r.data.xs_public.getD j 0) aux⟩⟩) :: out', ?_, ?_, ?_⟩
    · rw [Round3.sendLoop, getElem?_eq_some_getD _ 0 h1,
        getElem?_eq_some_getD _ 0 h2, getElem?_eq_some_getD _ 0 h3,
        getElem?_eq_some_getD _ 0 h4]
      simp only []
      rw [hrec]
      rfl
    · simp [hlen']
    · intro k hk
      cases k with
      | zero => simp
      | succ k0 =>
        have hk0 : k0 < rest.length := by simpa using hk
        have := hspec' k0 hk0
        simp only [List.getElem?_cons_succ, List.getElem_cons_succ]
        rw [this]
        have e1 : rng + 2 + 2 * k0 = rng + 2 * (k0 + 1) := by ring
        rw [e1]

/-! ### Claim theorems -/

/-- C2: `FullData::hash()` is a chaining hash with domain-separation tag
"Auxiliary" that absorbs exactly the twelve `FullData` fields in the order
session_id, party_idx, xs_public, sch_commitments_x, y_public,
sch_commitment_y, paillier_pk, s (paillier_public), t (paillier_base),
prm_proof, rho_bits, u_bits, and `Round1::to_send` broadcasts exactly this
digest as `V_i`. -/
theorem c2_fulldata_hash_transcript {Scalar Point : Type} :
    (∀ d : FullData Point,
      FullData.hash d =
        [HItem.dst "Auxiliary", HItem.bytes d.session_id,
         HItem.pidx d.party_idx, HItem.points d.xs_public,
         HItem.schcs d.sch_commitments_x, HItem.point d.y_public,
         HItem.schc d.sch_commitment_y, HItem.pk d.paillier_pk,
         HItem.uint d.paillier_public, HItem.uint d.paillier_base,
         HItem.prm d.prm_proof, HItem.bytes d.rho_bits,
         HItem.bytes d.u_bits]) ∧
    (∀ (r : Round1 Scalar Point) (rng : Nat),
      Round1.to_send r rng = ToSendTyped.Broadcast ⟨FullData.hash r.data⟩) :=
  ⟨fun _ => rfl, fun _ _ => rfl⟩

/-- C1: for every Round-2 message from party `j` (whose commitment `V_j`
is stored), `Round2::verify_received` performs exactly four checks in
order: (1) the revealed data hashes to `V_j`, (2) the Paillier modulus has
at least `8·λ` bits (a modulus of exactly `8·λ - 1` bits fails this check
and one of `8·λ` bits passes it), (3) the `xs_public` points sum to the
identity, (4) the PRM proof verifies with aux `(session_id, j)`; the error
identifies the first failed check and the `FullData` is returned iff all
four checks pass. -/
theorem c1_round2_verify_received {Scalar Point : Type} [AddCommMonoid Point]
    [DecidableEq Point] (prims : Primitives Scalar Point) (SEC : Nat)
    (r : Round2 Scalar Point) (from_ : PartyIdx) (msg : Round2Bcast Point)
    (vj : List (HItem Point)) (hget : r.hashes.get from_ = some vj) :
    (Round2.verify_received prims SEC r from_ msg = some (Except.ok msg.data)
      ↔ (FullData.hash msg.data = vj ∧
         8 * SEC ≤ msg.data.paillier_pk.modulusBits ∧
         msg.data.xs_public.sum = 0 ∧
         prims.prmVerify msg.data.prm_proof msg.data.paillier_pk
           msg.data.paillier_base msg.data.paillier_public
           (Aux.r1 r.data.session_id from_) = true)) ∧
    (Round2.verify_received prims SEC r from_ msg =
        some (Except.error "Invalid hash") ↔
      FullData.hash msg.data ≠ vj) ∧
    (Round2.verify_received prims SEC r from_ msg =
        some (Except.error "Paillier modulus is too small") ↔
      (FullData.hash msg.data = vj ∧
       msg.data.paillier_pk.modulusBits < 8 * SEC)) ∧
    (Round2.verify_received prims SEC r from_ msg =
        some (Except.error "Sum of X points is not identity") ↔
      (FullData.hash msg.data = vj ∧
       8 * SEC ≤ msg.data.paillier_pk.modulusBits ∧
       msg.data.xs_public.sum ≠ 0)) ∧
    (Round2.verify_received prims SEC r from_ msg =
        some (Except.error "PRM verification failed") ↔
      (FullData.hash msg.data = vj ∧
       8 * SEC ≤ msg.data.paillier_pk.modulusBits ∧
       msg.data.xs_public.sum = 0 ∧
       prims.prmVerify msg.data.prm_proof msg.data.paillier_pk
         msg.data.paillier_base msg.data.paillier_public
         (Aux.r1 r.data.session_id from_) = false)) ∧
    (0 < SEC → msg.data.paillier_pk.modulusBits = 8 * SEC - 1 →
      FullData.hash msg.data = vj →
      Round2.verify_received prims SEC r from_ msg =
        some (Except.error "Paillier modulus is too small")) ∧
    (msg.data.paillier_pk.modulusBits = 8 * SEC →
      Round2.verify_received prims SEC r from_ msg ≠
        some (Except.error "Paillier modulus is too small")) := by
  simp only [Round2.verify_received, hget]
  by_cases h1 : FullData.hash msg.data = vj
  · by_cases h2 : 8 * SEC ≤ msg.data.paillier_pk.modulusBits
    · by_cases h3 : msg.data.xs_public.sum = 0
      · by_cases h4 : prims.prmVerify msg.data.prm_proof msg.data.paillier_pk
            msg.data.paillier_base msg.data.paillier_public
            (Aux.r1 r.data.session_id from_) = true
        · simp [h1, h2, h3, h4, Nat.not_lt.mpr h2]
          omega
        · simp only [Bool.not_eq_true] at h4
          simp [h1, h2, h3, h4, Nat.not_lt.mpr h2]
          omega
      · simp [h1, h2, h3, Nat.not_lt.mpr h2]
        omega
    · have h2l : msg.data.paillier_pk.modulusBits < 8 * SEC := Nat.not_le.mp h2
      simp [h1, h2, h2l]
      omega
  · simp [h1]

/-- Witness for C1: party 0 accepts party 1's honestly revealed bundle
at λ = 256 with a 2048-bit modulus. -/
theorem c1_round2_verify_received_witness :
    Round2.verify_received wPrims 256 wR2 1 ⟨wData1⟩ =
      some (Except.ok wData1) :=
  (c1_round2_verify_received wPrims 256 wR2 1 ⟨wData1⟩ (FullData.hash wData1)
    rfl).1.mpr ⟨rfl, by decide, by decide, rfl⟩

/-- C9 (counterexample): at `min_bits = 0` the length computation
`(min_bits - 1) / 8 + 1` of `BitVec::random` underflows and the function
panics instead of returning the `⌈0/8⌉ = 0`-byte string the claim as
stated requires. -/
theorem c9_bitvec_counterexample :
    BitVec.random (fun b => b) 0 = none := rfl

/-- C9 (amended): for every `min_bits ≥ 1`, `BitVec::random` returns a
byte string of exactly `⌈min_bits/8⌉` bytes (for any length-preserving
RNG fill), and the in-place XOR of two `BitVec`s is defined exactly when
the byte lengths agree. -/
theorem c9_bitvec_random_len :
    (∀ (fill : Bytes → Bytes) (min_bits : Nat),
      (∀ b, (fill b).length = b.length) → 1 ≤ min_bits →
      (BitVec.random fill min_bits).isSome = true ∧
      ∀ v, BitVec.random fill min_bits = some v →
        v.length = (min_bits + 7) / 8) ∧
    (∀ a b : Bytes, (BitVec.bitxor_assign a b).isSome = true ↔
      a.length = b.length) := by
  constructor
  · intro fill min_bits hfill h
    have h0 : min_bits ≠ 0 := by omega
    constructor
    · simp [BitVec.random, h0]
    · intro v hv
      rw [BitVec.random, if_neg h0] at hv
      obtain rfl : fill (List.replicate ((min_bits - 1) / 8 + 1) 0) = v :=
        Option.some.inj hv
      rw [hfill, List.length_replicate]
      have h7 : min_bits + 7 = (min_bits - 1) + 8 := by omega
      rw [h7, Nat.add_div_right _ (by norm_num)]
  · intro a b
    unfold BitVec.bitxor_assign
    by_cases h : a.length = b.length
    · simp [h]
    · simp [h]

/-- Witness for C9: λ = 256 yields a 32-byte string, and the XOR of two
2-byte vectors is defined. -/
theorem c9_bitvec_random_len_witness :
    (BitVec.random (fun b => b) 256).isSome = true ∧
    (List.replicate 32 (0 : Nat)).length = (256 + 7) / 8 ∧
    (BitVec.bitxor_assign [1, 2] [3, 4]).isSome = true :=
  ⟨(c9_bitvec_random_len.1 (fun b => b) 256 (fun _ => rfl) (by norm_num)).1,
   (c9_bitvec_random_len.1 (fun b => b) 256 (fun _ => rfl) (by norm_num)).2
     (List.replicate 32 0) rfl,
   (c9_bitvec_random_len.2 [1, 2] [3, 4]).mpr rfl⟩

/-- C8 (code bug): `Round3::verify_received` reuses the error string
"Sch proof verification (Y) failed" for the `sch_proof_x` check.  With a
SCH verifier accepting exactly the proof handle `1`, the packet failing
only the Y-proof and the packet failing only the X-proof produce the same
error value, so the error returned when `sch_proof_y` fails does not
differ from the error returned when `sch_proof_x` fails. -/
theorem c8_sch_error_collision :
    bPrims.schVerify msgY.data2.sch_proof_y wData1.sch_commitment_y
        wData1.y_public (Aux.r3 [1] [0] 1) = false ∧
    bPrims.schVerify msgX.data2.sch_proof_y wData1.sch_commitment_y
        wData1.y_public (Aux.r3 [1] [0] 1) = true ∧
    bPrims.schVerify msgX.data2.sch_proof_x 0 0 (Aux.r3 [1] [0] 1) = false ∧
    Round3.verify_received bPrims (fun _ => (0 : Int)) wR3 1 msgY =
      some (Except.error "Sch proof verification (Y) failed") ∧
    Round3.verify_received bPrims (fun _ => (0 : Int)) wR3 1 msgX =
      some (Except.error "Sch proof verification (Y) failed") := by
  refine ⟨rfl, rfl, rfl, ?_, ?_⟩ <;> rfl

/-- C10: in `Round3::verify_received` a failed decryption of
`paillier_enc_x` panics via `unwrap` (modelled as `none`) instead of
returning a verification error; the "Mismatched secret x" error is
returned exactly when decryption succeeds but the curve image of the
decrypted scalar differs from the sender's `xs_public[self]`. -/
theorem c10_round3_decrypt_panic {Scalar Point : Type} [DecidableEq Point]
    (prims : Primitives Scalar Point) (gmul : Scalar → Point)
    (r : Round3 Scalar Point) (from_ : PartyIdx) (msg : Round3Direct)
    (sd : FullData Point) (hget : r.datas.get from_ = some sd) :
    (prims.decrypt r.secret_data.paillier_sk msg.data2.paillier_enc_x = none →
      Round3.verify_received prims gmul r from_ msg = none) ∧
    (Round3.verify_received prims gmul r from_ msg =
        some (Except.error "Mismatched secret x") ↔
      ∃ x xpub, prims.decrypt r.secret_data.paillier_sk
          msg.data2.paillier_enc_x = some x ∧
        sd.xs_public[r.data.party_idx]? = some xpub ∧ gmul x ≠ xpub) := by
  cases hdec : prims.decrypt r.secret_data.paillier_sk
      msg.data2.paillier_enc_x with
  | none =>
    refine ⟨fun _ => ?_, ?_⟩
    · simp [Round3.verify_received, hget, hdec]
    · simp [Round3.verify_received, hget, hdec]
  | some x =>
    refine ⟨fun hcontra => by simp at hcontra ⊢, ?_⟩
    cases hpub : sd.xs_public[r.data.party_idx]? with
    | none => simp [Round3.verify_received, hget, hdec, hpub]
    | some xpub =>
      by_cases hx : gmul x = xpub
      · simp only [Round3.verify_received, hget, hdec, hpub]
        rw [if_neg (by simp [hx])]
        constructor
        · intro hcontra
          exfalso
          revert hcontra
          split_ifs <;> simp
          cases hsc : sd.sch_commitments_x[r.data.party_idx]? <;>
            simp [hpub] <;> split_ifs <;> simp
        · rintro ⟨x', xpub', hd', hp', hne⟩
          obtain rfl := Option.some.inj hd'
          obtain rfl := Option.some.inj hp'
          exact absurd hx hne
      · simp only [Round3.verify_received, hget, hdec, hpub]
        rw [if_pos (by simp [hx])]
        constructor
        · intro _
          exact ⟨x, xpub, rfl, rfl, hx⟩
        · intro _
          rfl

/-- Witness for C10: with decryption yielding `0` and a generator map
sending every scalar to `1 ≠ xs_public[0] = 0`, party 0 reports the
mismatch error on party 1's packet. -/
theorem c10_round3_decrypt_panic_witness :
    Round3.verify_received wPrims (fun _ => (1 : Int)) wR3 1 msgY =
      some (Except.error "Mismatched secret x") :=
  (c10_round3_decrypt_panic wPrims (fun _ => (1 : Int)) wR3 1 msgY wData1
    rfl).2.mpr ⟨0, 0, rfl, rfl, by decide⟩

/-- C4: `Round2::finalize` computes ρ as the byte-wise XOR of this
party's own `rho_bits` with the `rho_bits` of every peer's accepted
`FullData` (the XOR over all N parties including self), and any two
parties holding the same collection of the N `FullData` bundles compute
byte-identical ρ. -/
theorem c4_round2_finalize_rho {Scalar Point : Type}
    (r : Round2 Scalar Point) (payloads : HoleVec (FullData Point))
    (q : Round2 Scalar Point) (qpayloads : HoleVec (FullData Point))
    (hlen : ∀ d ∈ payloads.elems,
      d.rho_bits.length = r.data.rho_bits.length)
    (hsame : (r.data :: payloads.elems).Perm (q.data :: qpayloads.elems)) :
    (∃ r3, Round2.finalize r payloads = some r3 ∧
      r3.rho = List.foldl xorB r.data.rho_bits
        (payloads.elems.map (fun d => d.rho_bits)) ∧
      r3.data = r.data ∧ r3.secret_data = r.secret_data ∧
      r3.datas = payloads) ∧
    (∃ r3 q3, Round2.finalize r payloads = some r3 ∧
      Round2.finalize q qpayloads = some q3 ∧ r3.rho = q3.rho) := by
  have hmem : ∀ d ∈ r.data :: payloads.elems,
      d.rho_bits.length = r.data.rho_bits.length := by
    intro d hd
    rcases List.mem_cons.mp hd with h | h
    · rw [h]
    · exact hlen d h
  have hqmem : ∀ d ∈ q.data :: qpayloads.elems,
      d.rho_bits.length = r.data.rho_bits.length :=
    fun d hd => hmem d (hsame.mem_iff.mpr hd)
  have hqL : q.data.rho_bits.length = r.data.rho_bits.length :=
    hqmem q.data (by simp)
  have hqlen : ∀ d ∈ qpayloads.elems,
      d.rho_bits.length = q.data.rho_bits.length :=
    fun d hd => by rw [hqmem d (by simp [hd]), hqL]
  have hr := foldlM_xorInto (fun d => d.rho_bits) payloads.elems
    r.data.rho_bits hlen
  have hq := foldlM_xorInto (fun d => d.rho_bits) qpayloads.elems
    q.data.rho_bits hqlen
  have hfr : Round2.finalize r payloads = some
      { rho := List.foldl (fun acc d => xorB acc d.rho_bits)
          r.data.rho_bits payloads.elems,
        data := r.data, secret_data := r.secret_data, datas := payloads } := by
    unfold Round2.finalize
    rw [hr]
    rfl
  have hfq : Round2.finalize q qpayloads = some
      { rho := List.foldl (fun acc d => xorB acc d.rho_bits)
          q.data.rho_bits qpayloads.elems,
        data := q.data, secret_data := q.secret_data, datas := qpayloads } := by
    unfold Round2.finalize
    rw [hq]
    rfl
  refine ⟨⟨_, hfr, ?_, rfl, rfl, rfl⟩, ⟨_, _, hfr, hfq, ?_⟩⟩
  · rw [List.foldl_map]
  · have e1 : List.foldl (fun acc d => xorB acc d.rho_bits)
        r.data.rho_bits payloads.elems =
        List.foldl xorB (List.replicate r.data.rho_bits.length 0)
          ((r.data :: payloads.elems).map (fun d => d.rho_bits)) := by
      rw [List.map_cons, List.foldl_cons, xorB_replicate_zero rfl,
        List.foldl_map]
    have e2 : List.foldl (fun acc d => xorB acc d.rho_bits)
        q.data.rho_bits qpayloads.elems =
        List.foldl xorB (List.replicate r.data.rho_bits.length 0)
          ((q.data :: qpayloads.elems).map (fun d => d.rho_bits)) := by
      rw [List.map_cons, List.foldl_cons, xorB_replicate_zero hqL,
        List.foldl_map]
    have e3 := foldl_xorB_perm (hsame.map (fun d => d.rho_bits))
      (List.replicate r.data.rho_bits.length 0)
    exact e1.trans (e3.trans e2.symm)

/-- Witness for C4: parties 0 and 1 hold the same two bundles
(`rho_bits` `[5]` and `[7]`) and both finalize with ρ = `[2]`. -/
theorem c4_round2_finalize_rho_witness :
    (Round2.finalize wR2 wPay0).map Round3.rho = some [2] ∧
    (Round2.finalize wR2p1 wPay1).map Round3.rho = some [2] := by
  obtain ⟨⟨r3, h1, hrho, -, -, -⟩, -⟩ :=
    c4_round2_finalize_rho wR2 wPay0 wR2p1 wPay1 (by decide) (by decide)
  obtain ⟨⟨q3, h2, hqrho, -, -, -⟩, -⟩ :=
    c4_round2_finalize_rho wR2p1 wPay1 wR2 wPay0 (by decide) (by decide)
  constructor
  · rw [h1, Option.map_some', hrho]
    rfl
  · rw [h2, Option.map_some', hqrho]
    rfl

/-- C5: `Round3::finalize` sets `x_mask` to the sum of `incoming[j]` over
all N parties (the accepted scalar of each peer, with the own share
`xs_secret[self]` inserted at position self), sets
`xs_masks_public[k] = Σ_j xs_public^{(j)}[k]` over all N bundles (peers
plus the own bundle inserted at position self), and collects `ys_public`,
`paillier_pks` and the s and t values into length-N vectors with each
party's published value at that party's index. -/
theorem c5_round3_finalize {Scalar Point : Type} [AddCommMonoid Scalar]
    [AddCommMonoid Point] (r : Round3 Scalar Point)
    (payloads : HoleVec Scalar)
    (hpos_d : r.datas.position = r.data.party_idx)
    (hdle : r.data.party_idx ≤ r.datas.elems.length)
    (hpos_p : payloads.position = r.data.party_idx)
    (hple : r.data.party_idx ≤ payloads.elems.length)
    (hsec : r.data.party_idx < r.secret_data.xs_secret.length)
    (hxlen : ∀ d ∈ r.datas.into_vec r.data,
      d.xs_public.length = r.datas.elems.length + 1) :
    ∃ aux, Round3.finalize r payloads = some aux ∧
      aux.x_mask = (payloads.into_vec
        (r.secret_data.xs_secret.getD r.data.party_idx 0)).sum ∧
      aux.x_mask = r.secret_data.xs_secret.getD r.data.party_idx 0 +
        payloads.elems.sum ∧
      (payloads.into_vec
          (r.secret_data.xs_secret.getD r.data.party_idx 0))[
            r.data.party_idx]? =
        some (r.secret_data.xs_secret.getD r.data.party_idx 0) ∧
      aux.xs_masks_public.length = r.datas.elems.length + 1 ∧
      (∀ k, k < r.datas.elems.length + 1 →
        aux.xs_masks_public[k]? =
          some (((r.datas.into_vec r.data).map
            (fun d => d.xs_public.getD k 0)).sum)) ∧
      aux.ys_public = (r.datas.into_vec r.data).map (fun d => d.y_public) ∧
      aux.paillier_pks =
        (r.datas.into_vec r.data).map (fun d => d.paillier_pk) ∧
      aux.paillier_publics =
        (r.datas.into_vec r.data).map (fun d => d.paillier_public) ∧
      aux.paillier_bases =
        (r.datas.into_vec r.data).map (fun d => d.paillier_base) ∧
      (∀ j d, r.datas.get j = some d →
        aux.ys_public[j]? = some d.y_public ∧
        aux.paillier_pks[j]? = some d.paillier_pk ∧
        aux.paillier_publics[j]? = some d.paillier_public ∧
        aux.paillier_bases[j]? = some d.paillier_base) ∧
      (aux.ys_public[r.data.party_idx]? = some r.data.y_public ∧
       aux.paillier_pks[r.data.party_idx]? = some r.data.paillier_pk ∧
       aux.paillier_publics[r.data.party_idx]? =
         some r.data.paillier_public ∧
       aux.paillier_bases[r.data.party_idx]? =
         some r.data.paillier_base) := by
  have hN : (r.datas.into_vec r.data).length = r.datas.elems.length + 1 :=
    HoleVec.into_vec_length r.datas r.data
  have hfin := Round3.finalize_eq r payloads hsec
    (fun d hd => by rw [hxlen d hd, hN])
  have hdposle : r.datas.position ≤ r.datas.elems.length := by
    rw [hpos_d]
    exact hdle
  have hpposle : payloads.position ≤ payloads.elems.length := by
    rw [hpos_p]
    exact hple
  refine ⟨_, hfin, rfl, ?_, ?_, ?_, ?_, rfl, rfl, rfl, rfl, ?_, ?_⟩
  · exact HoleVec.into_vec_sum payloads _
  · rw [← hpos_p]
    exact HoleVec.into_vec_get_self payloads _ hpposle
  · simp [hN]
  · intro k hk
    rw [List.getElem?_map, List.getElem?_range (by omega : k < (r.datas.into_vec r.data).length)]
    rfl
  · intro j d hget
    have h := HoleVec.into_vec_get_of_get r.datas r.data hdposle hget
    refine ⟨?_, ?_, ?_, ?_⟩ <;>
      rw [List.getElem?_map, h, Option.map_some']
  · have h := HoleVec.into_vec_get_self r.datas r.data hdposle
    rw [hpos_d] at h
    refine ⟨?_, ?_, ?_, ?_⟩ <;>
      rw [List.getElem?_map, h, Option.map_some']

/-- Witness for C5: party 0 finalizes with
`x_mask = xs_secret[0] + 4 = 5` and the published `ys_public` vector
collects both parties' points. -/
theorem c5_round3_finalize_witness :
    (Round3.finalize wR3 wPayS).map AuxData.x_mask = some 5 ∧
    (Round3.finalize wR3 wPayS).map AuxData.ys_public = some [0, 0] := by
  obtain ⟨aux, hfin, -, hsum, -, -, -, hys, -, -, -, -, -⟩ :=
    c5_round3_finalize wR3 wPayS rfl (by decide) rfl (by decide) (by decide)
      (by decide)
  refine ⟨?_, ?_⟩
  · rw [hfin, Option.map_some', hsum]
    rfl
  · rw [hfin, Option.map_some', hys]
    rfl

/-- C3: for every party whose Round-3 state descends from `Round1::new`
(so that `G·xs_secret[k] = xs_public[k]` for every k — first conjunct)
and whose every Round-3 payload was accepted by `Round3::verify_received`
(so that each accepted scalar x from sender j satisfies
`G·x = xs_public^{(j)}[self]` — second conjunct), the `AuxData` produced
by `Round3::finalize` satisfies
`G·x_mask = xs_masks_public[party_idx]` (third conjunct). -/
theorem c3_mask_consistency {Scalar Point : Type} [AddCommGroup Scalar]
    [AddCommMonoid Point] [DecidableEq Point] :
    (∀ (prims : Primitives Scalar Point) (gmul : Scalar → Point)
      (SEC rng : Nat) (sid : SessionId) (idx : PartyIdx) (n : Nat),
      (Round1.new prims gmul SEC rng sid idx n).data.xs_public =
        ((Round1.new prims gmul SEC rng sid idx n).secret_data.xs_secret).map
          gmul) ∧
    (∀ (prims : Primitives Scalar Point) (gmul : Scalar → Point)
      (r : Round3 Scalar Point) (from_ : PartyIdx) (msg : Round3Direct)
      (x : Scalar),
      Round3.verify_received prims gmul r from_ msg = some (Except.ok x) →
      ∃ sd xpub, r.datas.get from_ = some sd ∧
        sd.xs_public[r.data.party_idx]? = some xpub ∧ gmul x = xpub) ∧
    (∀ (gmul : Scalar → Point), gmul 0 = 0 →
      (∀ a b, gmul (a + b) = gmul a + gmul b) →
      ∀ (r : Round3 Scalar Point) (payloads : HoleVec Scalar),
      r.data.xs_public = r.secret_data.xs_secret.map gmul →
      r.datas.position = r.data.party_idx →
      payloads.position = r.data.party_idx →
      r.data.party_idx ≤ r.datas.elems.length →
      payloads.elems.length = r.datas.elems.length →
      r.data.party_idx < r.secret_data.xs_secret.length →
      (∀ d ∈ r.datas.into_vec r.data,
        d.xs_public.length = r.datas.elems.length + 1) →
      (∀ j x, payloads.get j = some x → ∃ d, r.datas.get j = some d ∧
        gmul x = d.xs_public.getD r.data.party_idx 0) →
      ∃ aux, Round3.finalize r payloads = some aux ∧
        gmul aux.x_mask = aux.xs_masks_public.getD r.data.party_idx 0) := by
  refine ⟨fun _ _ _ _ _ _ _ => rfl, ?_, ?_⟩
  · intro prims gmul r from_ msg x hok
    unfold Round3.verify_received at hok
    cases hget : r.datas.get from_ with
    | none => rw [hget] at hok; simp at hok
    | some sd =>
      rw [hget] at hok
      simp only [] at hok
      cases hdec : prims.decrypt r.secret_data.paillier_sk
          msg.data2.paillier_enc_x with
      | none => rw [hdec] at hok; simp at hok
      | some x0 =>
        rw [hdec] at hok
        simp only [] at hok
        cases hpub : sd.xs_public[r.data.party_idx]? with
        | none => rw [hpub] at hok; simp at hok
        | some xpub =>
          rw [hpub] at hok
          simp only [] at hok
          by_cases hx : gmul x0 = xpub
          · rw [if_neg (by simp [hx])] at hok
            split_ifs at hok
            · simp at hok
            · simp at hok
            · simp at hok
            · cases hsc : sd.sch_commitments_x[r.data.party_idx]? with
              | none => rw [hsc] at hok; simp at hok
              | some schx_com =>
                rw [hsc] at hok
                simp only [] at hok
                split_ifs at hok
                · simp at hok
                · obtain rfl : x0 = x := by
                    simpa using hok
                  exact ⟨sd, xpub, rfl, hpub, hx⟩
          · rw [if_pos (by simp [hx])] at hok
            simp at hok
  · intro gmul h0 hadd r payloads hmap hpos_d hpos_p hdle hlen_eq hsec
      hxlen hacc
    have hN := HoleVec.into_vec_length r.datas r.data
    have hfin := Round3.finalize_eq r payloads hsec
      (fun d hd => by rw [hxlen d hd, hN])
    refine ⟨_, hfin, ?_⟩
    have helem : ∀ k (h1 : k < payloads.elems.length)
        (h2 : k < r.datas.elems.length),
        gmul payloads.elems[k] =
          (r.datas.elems[k]).xs_public.getD r.data.party_idx 0 := by
      intro k h1 h2
      by_cases hk : k < r.data.party_idx
      · have hget : payloads.get k = some payloads.elems[k] := by
          rw [HoleVec.get_of_lt payloads (by rw [hpos_p]; exact hk)]
          exact List.getElem?_eq_getElem h1
        obtain ⟨d, hgd, hgx⟩ := hacc k _ hget
        have hdd : r.datas.get k = some r.datas.elems[k] := by
          rw [HoleVec.get_of_lt r.datas (by rw [hpos_d]; exact hk)]
          exact List.getElem?_eq_getElem h2
        rw [hgd] at hdd
        obtain rfl := Option.some.inj hdd
        exact hgx
      · have hk2 : r.data.party_idx ≤ k := Nat.le_of_not_lt hk
        have hget : payloads.get (k + 1) = some payloads.elems[k] := by
          rw [HoleVec.get_of_ge payloads (by rw [hpos_p]; exact hk2)]
          exact List.getElem?_eq_getElem h1
        obtain ⟨d, hgd, hgx⟩ := hacc (k + 1) _ hget
        have hdd : r.datas.get (k + 1) = some r.datas.elems[k] := by
          rw [HoleVec.get_of_ge r.datas (by rw [hpos_d]; exact hk2)]
          exact List.getElem?_eq_getElem h2
        rw [hgd] at hdd
        obtain rfl := Option.some.inj hdd
        exact hgx
    have hmain : gmul ((payloads.into_vec
        (r.secret_data.xs_secret.getD r.data.party_idx 0)).sum) =
        ((r.datas.into_vec r.data).map
          (fun d => d.xs_public.getD r.data.party_idx 0)).sum := by
      rw [HoleVec.into_vec_sum payloads, hadd, gmul_list_sum gmul h0 hadd,
        HoleVec.into_vec_map r.datas r.data, HoleVec.into_vec_sum]
      refine congrArg₂ (· + ·) ?_ ?_
      · rw [hmap, getD_map gmul _ hsec 0 0]
      · rw [map_eq_map_of_getElem gmul
          (fun d => d.xs_public.getD r.data.party_idx 0) payloads.elems
          r.datas.elems hlen_eq helem]
    have hself_lt : r.data.party_idx <
        ((List.range (r.datas.into_vec r.data).length).map
          (fun k => ((r.datas.into_vec r.data).map
            (fun d => d.xs_public.getD k 0)).sum)).length := by
      rw [List.length_map, List.length_range, hN]
      exact Nat.lt_succ_of_le hdle
    show gmul ((payloads.into_vec
        (r.secret_data.xs_secret.getD r.data.party_idx 0)).sum) =
      ((List.range (r.datas.into_vec r.data).length).map
        (fun k => ((r.datas.into_vec r.data).map
          (fun d => d.xs_public.getD k 0)).sum)).getD r.data.party_idx 0
    rw [List.getD_eq_getElem _ _ hself_lt, List.getElem_map,
      List.getElem_range]
    exact hmain

/-- Witness for C3: party 0 with honest data (`gmul = id`) finalizes and
its mask satisfies `G·x_mask = xs_masks_public[0]`. -/
theorem c3_mask_consistency_witness :
    (Round3.finalize wR3 wPayC3).map AuxData.x_mask =
      (Round3.finalize wR3 wPayC3).map wMaskAt0 := by
  obtain ⟨aux, hfin, heq⟩ :=
    c3_mask_consistency.2.2 (fun x : Int => x) rfl (fun _ _ => rfl) wR3 wPayC3
      rfl rfl rfl (by decide) (by decide) (by decide) (by decide)
      (fun j x hget => by
        match j, hget with
        | 0, h => simp [wPayC3, HoleVec.get] at h
        | 1, h =>
          obtain rfl : (0 : Int) = x := Option.some.inj h
          exact ⟨wData1, rfl, by decide⟩
        | (n + 2), h => exact absurd h (by simp [HoleVec.get, wPayC3]))
  rw [hfin, Option.map_some', Option.map_some']
  exact congrArg some heq

/-- C6: `Round3::to_send` produces exactly one direct message per other
party (N − 1 entries, whose recipients are exactly the indices other than
self), every message carries the same `mod_proof` and the same
`sch_proof_y` generated once with aux = (session_id, ρ, self), while
`fac_proof` is drawn freshly (at a distinct RNG state) for each
recipient with the same aux, `paillier_enc_x` encrypts `xs_secret[j]`
under recipient j's Paillier public key, and `sch_proof_x` is built from
the j-th SCH secret, `xs_secret[j]`, the j-th SCH commitment and
`xs_public[j]`. -/
theorem c6_round3_to_send {Scalar Point : Type} [AddCommMonoid Scalar]
    [AddCommMonoid Point] (prims : Primitives Scalar Point) (SEC : Nat)
    (r : Round3 Scalar Point) (rng : Nat)
    (hpos : r.datas.position ≤ r.datas.elems.length)
    (hidx : ∀ e ∈ r.datas.enumerate,
      e.1 < r.secret_data.xs_secret.length ∧
      e.1 < r.data.xs_public.length ∧
      e.1 < r.secret_data.sch_secrets_x.length ∧
      e.1 < r.data.sch_commitments_x.length) :
    ∃ dms, Round3.to_send prims SEC r rng =
        some (ToSendTyped.Direct dms) ∧
      dms.length = r.datas.elems.length ∧
      dms.map Prod.fst = (List.range (r.datas.elems.length + 1)).filter
        (fun i => decide (i ≠ r.datas.position)) ∧
      ∀ k (hk : k < r.datas.elems.length),
        ∃ j data, r.datas.enumerate[k]? = some (j, data) ∧
          dms[k]? = some (j, ⟨⟨
            prims.modRandom rng r.secret_data.paillier_sk
              (Aux.r3 r.data.session_id r.rho r.data.party_idx) SEC,
            prims.facRandom (rng + 1 + 2 * k) r.secret_data.paillier_sk
              (Aux.r3 r.data.session_id r.rho r.data.party_idx),
            prims.schNew r.secret_data.sch_secret_y r.secret_data.y_secret
              r.data.sch_commitment_y r.data.y_public
              (Aux.r3 r.data.session_id r.rho r.data.party_idx),
            prims.ctNew (rng + 2 + 2 * k) data.paillier_pk
              (r.secret_data.xs_secret.getD j 0),
            prims.schNew (r.secret_data.sch_secrets_x.getD j 0)
              (r.secret_data.xs_secret.getD j 0)
              (r.data.sch_commitments_x.getD j 0)
              (r.data.xs_public.getD j 0)
              (Aux.r3 r.data.session_id r.rho r.data.party_idx)⟩⟩) := by
  obtain ⟨out, hloop, hlen, hspec⟩ := Round3.sendLoop_spec prims r
    (prims.modRandom rng r.secret_data.paillier_sk
      (Aux.r3 r.data.session_id r.rho r.data.party_idx) SEC)
    (prims.schNew r.secret_data.sch_secret_y r.secret_data.y_secret
      r.data.sch_commitment_y r.data.y_public
      (Aux.r3 r.data.session_id r.rho r.data.party_idx))
    (Aux.r3 r.data.session_id r.rho r.data.party_idx)
    r.datas.enumerate (rng + 1) hidx
  have hel := HoleVec.enumerate_length r.datas
  refine ⟨out, ?_, by rw [hlen, hel], ?_, ?_⟩
  · simp only [Round3.to_send]
    rw [hloop]
    rfl
  · -- recipients are exactly the non-self indices
    have hfst : out.map Prod.fst = r.datas.enumerate.map Prod.fst := by
      refine map_eq_map_of_getElem Prod.fst Prod.fst out r.datas.enumerate
        hlen (fun k h1 h2 => ?_)
      have hsp := hspec k h2
      rw [List.getElem?_eq_getElem h1] at hsp
      obtain h4 := Option.some.inj hsp
      rw [h4]
    rw [hfst, HoleVec.enumerate_map_fst r.datas hpos]
  · intro k hk
    have hk' : k < r.datas.enumerate.length := by rw [hel]; exact hk
    have hsp := hspec k hk'
    refine ⟨r.datas.enumerate[k].1, r.datas.enumerate[k].2,
      by rw [List.getElem?_eq_getElem hk'], ?_⟩
    rw [hsp]
    have e1 : rng + 1 + 2 * k + 1 = rng + 2 + 2 * k := by ring
    rw [e1]

/-- Witness for C6: party 0 with one peer sends exactly one direct
message. -/
theorem c6_round3_to_send_witness :
    (Round3.to_send wPrims 256 wR3 5).map wDirectLen = some 1 := by
  obtain ⟨dms, hts, hlen, -, -⟩ :=
    c6_round3_to_send wPrims 256 wR3 5 (by decide) (by decide)
  rw [hts, Option.map_some']
  show some dms.length = some 1
  rw [hlen]
  rfl

/-- C7: the Fiat–Shamir auxiliary for the PRM proof is (session_id,
prover's party index) both at generation (Round 1) and verification
(Round 2), whereas Round 3's MOD and SCH proofs (both the SCH proof for y
and the per-recipient SCH proof for x) are produced and verified with
aux = (session_id, ρ, sender's party index); the FAC proof's
verification is invoked with no auxiliary at all — the `facVerify`
surface takes only the proof — even though the Round-3 aux is built at
the verification site. -/
theorem c7_fiat_shamir_aux_domains {Scalar Point : Type}
    [AddCommGroup Scalar] [AddCommMonoid Point] [DecidableEq Point] :
    (∀ (prims : Primitives Scalar Point) (gmul : Scalar → Point)
      (SEC rng : Nat) (sid : SessionId) (idx : PartyIdx) (n : Nat),
      ∃ rp sk lam t s,
        (Round1.new prims gmul SEC rng sid idx n).data.prm_proof =
          prims.prmRandom rp sk lam t s (Aux.r1 sid idx) SEC) ∧
    (∀ (prims : Primitives Scalar Point) (SEC : Nat)
      (r : Round2 Scalar Point) (from_ : PartyIdx) (msg : Round2Bcast Point)
      (vj : List (HItem Point)), r.hashes.get from_ = some vj →
      FullData.hash msg.data = vj →
      8 * SEC ≤ msg.data.paillier_pk.modulusBits →
      msg.data.xs_public.sum = 0 →
      (Round2.verify_received prims SEC r from_ msg =
          some (Except.ok msg.data) ↔
        prims.prmVerify msg.data.prm_proof msg.data.paillier_pk
          msg.data.paillier_base msg.data.paillier_public
          (Aux.r1 r.data.session_id from_) = true)) ∧
    (∀ (prims : Primitives Scalar Point) (SEC : Nat)
      (r : Round3 Scalar Point) (rng : Nat),
      r.datas.position ≤ r.datas.elems.length →
      (∀ e ∈ r.datas.enumerate,
        e.1 < r.secret_data.xs_secret.length ∧
        e.1 < r.data.xs_public.length ∧
        e.1 < r.secret_data.sch_secrets_x.length ∧
        e.1 < r.data.sch_commitments_x.length) →
      ∀ dms, Round3.to_send prims SEC r rng =
          some (ToSendTyped.Direct dms) →
      ∀ e ∈ dms,
        e.2.data2.mod_proof = prims.modRandom rng r.secret_data.paillier_sk
          (Aux.r3 r.data.session_id r.rho r.data.party_idx) SEC ∧
        e.2.data2.sch_proof_y = prims.schNew r.secret_data.sch_secret_y
          r.secret_data.y_secret r.data.sch_commitment_y r.data.y_public
          (Aux.r3 r.data.session_id r.rho r.data.party_idx) ∧
        (∃ rf, e.2.data2.fac_proof = prims.facRandom rf
          r.secret_data.paillier_sk
          (Aux.r3 r.data.session_id r.rho r.data.party_idx)) ∧
        ∃ sx xsec com pub, e.2.data2.sch_proof_x =
          prims.schNew sx xsec com pub
            (Aux.r3 r.data.session_id r.rho r.data.party_idx)) ∧
    (∀ (prims : Primitives Scalar Point) (gmul : Scalar → Point)
      (r : Round3 Scalar Point) (from_ : PartyIdx) (msg : Round3Direct)
      (sd : FullData Point) (xpub : Point) (schx : SchCommitment)
      (x : Scalar),
      r.datas.get from_ = some sd →
      sd.xs_public[r.data.party_idx]? = some xpub →
      sd.sch_commitments_x[r.data.party_idx]? = some schx →
      (Round3.verify_received prims gmul r from_ msg =
          some (Except.ok x) ↔
        (prims.decrypt r.secret_data.paillier_sk msg.data2.paillier_enc_x =
            some x ∧
         gmul x = xpub ∧
         prims.modVerify msg.data2.mod_proof sd.paillier_pk
           (Aux.r3 r.data.session_id r.rho from_) = true ∧
         prims.facVerify msg.data2.fac_proof = true ∧
         prims.schVerify msg.data2.sch_proof_y sd.sch_commitment_y
           sd.y_public (Aux.r3 r.data.session_id r.rho from_) = true ∧
         prims.schVerify msg.data2.sch_proof_x schx xpub
           (Aux.r3 r.data.session_id r.rho from_) = true))) := by
  refine ⟨?_, ?_, ?_, ?_⟩
  · intro prims gmul SEC rng sid idx n
    exact ⟨_, _, _, _, _, rfl⟩
  · intro prims SEC r from_ msg vj hget h1 h2 h3
    simp only [Round2.verify_received, hget]
    rw [if_neg (by simp [h1]), if_neg (Nat.not_lt.mpr h2),
      if_neg (by simp [h3])]
    by_cases h4 : prims.prmVerify msg.data.prm_proof msg.data.paillier_pk
        msg.data.paillier_base msg.data.paillier_public
        (Aux.r1 r.data.session_id from_) = true
    · rw [if_neg (by simp [h4])]
      simp [h4]
    · have h4f : prims.prmVerify msg.data.prm_proof msg.data.paillier_pk
          msg.data.paillier_base msg.data.paillier_public
          (Aux.r1 r.data.session_id from_) = false := by simpa using h4
      rw [if_pos h4f]
      simp [h4f]
  · intro prims SEC r rng hpos hidx dms hts e he
    obtain ⟨out, hloop, hlen, hspec⟩ := Round3.sendLoop_spec prims r
      (prims.modRandom rng r.secret_data.paillier_sk
        (Aux.r3 r.data.session_id r.rho r.data.party_idx) SEC)
      (prims.schNew r.secret_data.sch_secret_y r.secret_data.y_secret
        r.data.sch_commitment_y r.data.y_public
        (Aux.r3 r.data.session_id r.rho r.data.party_idx))
      (Aux.r3 r.data.session_id r.rho r.data.party_idx)
      r.datas.enumerate (rng + 1) hidx
    have hts2 : Round3.to_send prims SEC r rng =
        some (ToSendTyped.Direct out) := by
      simp only [Round3.to_send]
      rw [hloop]
      rfl
    rw [hts] at hts2
    have hde := Option.some.inj hts2
    injection hde with hde2
    subst hde2
    obtain ⟨k, hk⟩ := List.mem_iff_getElem?.mp he
    obtain ⟨hkl, -⟩ := List.getElem?_eq_some_iff.mp hk
    have hke : k < r.datas.enumerate.length := by rw [← hlen]; exact hkl
    have hsp := hspec k hke
    obtain he2 := Option.some.inj (hk.symm.trans hsp)
    rw [he2]
    exact ⟨rfl, rfl, ⟨rng + 1 + 2 * k, rfl⟩, ⟨_, _, _, _, rfl⟩⟩
  · intro prims gmul r from_ msg sd xpub schx x hget hpub hsc
    unfold Round3.verify_received
    rw [hget]
    simp only []
    cases hdec : prims.decrypt r.secret_data.paillier_sk
        msg.data2.paillier_enc_x with
    | none => simp
    | some x0 =>
      simp only []
      rw [hpub]
      simp only []
      by_cases h1 : gmul x0 = xpub
      · rw [if_neg (by simp [h1])]
        by_cases h2 : prims.modVerify msg.data2.mod_proof sd.paillier_pk
            (Aux.r3 r.data.session_id r.rho from_) = true
        · rw [if_neg (by simp [h2])]
          by_cases h3 : prims.facVerify msg.data2.fac_proof = true
          · rw [if_neg (by simp [h3])]
            by_cases h4 : prims.schVerify msg.data2.sch_proof_y
                sd.sch_commitment_y sd.y_public
                (Aux.r3 r.data.session_id r.rho from_) = true
            · rw [if_neg (by simp [h4])]
              rw [hsc]
              simp only []
              by_cases h5 : prims.schVerify msg.data2.sch_proof_x schx xpub
                  (Aux.r3 r.data.session_id r.rho from_) = true
              · rw [if_neg (by simp [h5])]
                constructor
                · intro hok
                  obtain rfl : x0 = x := by simpa using hok
                  exact ⟨rfl, h1, h2, h3, h4, h5⟩
                · rintro ⟨hx, -, -, -, -, -⟩
                  obtain rfl := Option.some.inj hx
                  rfl
              · have hf : prims.schVerify msg.data2.sch_proof_x schx xpub
                    (Aux.r3 r.data.session_id r.rho from_) = false := by
                  simpa using h5
                rw [if_pos hf]
                simp [hf]
            · have hf : prims.schVerify msg.data2.sch_proof_y
                  sd.sch_commitment_y sd.y_public
                  (Aux.r3 r.data.session_id r.rho from_) = false := by
                simpa using h4
              rw [if_pos hf]
              simp [hf]
          · have hf : prims.facVerify msg.data2.fac_proof = false := by
              simpa using h3
            rw [if_pos hf]
            simp [hf]
        · have hf : prims.modVerify msg.data2.mod_proof sd.paillier_pk
              (Aux.r3 r.data.session_id r.rho from_) = false := by
            simpa using h2
          rw [if_pos hf]
          simp [hf]
      · rw [if_pos (by simp [h1])]
        constructor
        · intro h
          simp at h
        · rintro ⟨hx, hg, -, -, -, -⟩
          obtain rfl := Option.some.inj hx
          exact absurd hg h1

/-- Witness for C7: an accepting concrete instance of the Round-3
verification equivalence (all proofs accepted by `wPrims`, decrypted
share `0`, generator map sending everything to `xs_public^(1)[0] = 0`). -/
theorem c7_fiat_shamir_aux_domains_witness :
    Round3.verify_received wPrims (fun _ => (0 : Int)) wR3 1 msgY =
      some (Except.ok 0) :=
  (c7_fiat_shamir_aux_domains.2.2.2 wPrims (fun _ => (0 : Int)) wR3 1 msgY
    wData1 0 0 0 rfl rfl rfl).mpr ⟨rfl, rfl, rfl, rfl, rfl, rfl⟩

end Synedrion
